import Mathlib

/-!
Verification of the matchmaking and session-relay engine of the repository
(`src/index.ts` and its near-duplicate second server file, which adds the
mini-game relay handlers).  The engine is embedded shallowly: the mutable
globals `waitingUsers` / `activeUsers` become an explicit `ServerState`,
each socket.io event handler becomes a case of the pure step function
`handleEvent`, and every `emit` / `join` call on the transport layer is
recorded in an output list of `Emit` values.
-/

set_option maxRecDepth 4000

namespace Render

/-- The `User` record of the source (`interface User`).  `interests` is
`string[] | undefined` in the source, hence an `Option`; `partnerId` is
`string | undefined`. -/
structure User where
  id : String
  socketId : String
  interests : Option (List String)
  inChat : Bool
  partnerId : Option String
  deriving Repr, DecidableEq

/-- Outbound event payloads produced by the server (the arguments of the
`emit` calls in the source).  `webrtcSignal`'s second field is the `from`
field, which the source fills with the sender's `socket.id`.  Oracle data
the source generates impurely (uuids, timestamps) appear as explicit
fields. -/
inductive Event where
  | userIdEv (userId : String)
  | onlineCount (n : Nat)
  | partnerFound (partnerId roomId : String) (initiator : Bool)
  | waiting
  | searchCancelled
  | partnerDisconnected
  | chatEnded
  | receiveMessage (msgId senderId content : String) (timestamp : Nat)
  | partnerTyping (isTyping : Bool)
  | webrtcSignal (signal fromSocket : String)
  | gameRequest (gameType : String)
  | gameAccepted (gameType : String)
  | gameDeclined (gameType : String)
  | gameStarted (gameType : String)
  | ticTacToeMove (index : Nat) (symbol : String)
  | ticTacToePlayAgain
  | wyrChoice (choice : String)
  | wyrNextQuestion (question : String)
  deriving Repr, DecidableEq

/-- One transport-layer instruction issued by a handler.
`toSocket` is `someSocket.emit(...)`, `toRoomExceptSender` is
`socket.to(roomId).emit(...)` (room fan-out excluding the sender),
`toRoom` is `io.to(roomId).emit(...)` (room fan-out including the sender),
`broadcast` is `io.emit(...)`, and `join` is `someSocket.join(roomId)`. -/
inductive Emit where
  | toSocket (socketId : String) (ev : Event)
  | toRoomExceptSender (roomId senderSocketId : String) (ev : Event)
  | toRoom (roomId : String) (ev : Event)
  | broadcast (ev : Event)
  | join (socketId roomId : String)
  deriving Repr, DecidableEq

/-- Inbound events.  `connect` carries the uuid the server generates for
the new user; `sendMessage` carries the generated message id and the
`Date` timestamp as oracle inputs. -/
inductive ClientEvent where
  | connect (userId : String)
  | findPartner (interests : Option (List String))
  | cancelSearch
  | webrtcSignal (signal roomId : String)
  | sendMessage (message roomId msgId : String) (timestamp : Nat)
  | typing (roomId : String) (isTyping : Bool)
  | requestGame (roomId gameType : String)
  | acceptGame (roomId gameType : String)
  | declineGame (roomId gameType : String)
  | startGame (roomId gameType : String)
  | ticTacToeMove (roomId : String) (index : Nat) (symbol : String)
  | ticTacToePlayAgain (roomId : String)
  | wyrChoice (roomId choice : String)
  | wyrNextQuestion (roomId question : String)
  | skipPartner
  | disconnect
  deriving Repr, DecidableEq

/-- The two global collections of the source: `waitingUsers: User[]` and
`activeUsers: Map<string, User>` keyed by socket id (a JS `Map` preserves
insertion order, so an association list is a faithful embedding). -/
structure ServerState where
  waitingUsers : List User
  activeUsers : List (String × User)
  deriving Repr, DecidableEq

/-- The lookup `activeUsers.get(sock)`. -/
def lookupActive : List (String × User) → String → Option User
  | [], _ => none
  | (k, u) :: rest, sock => if k = sock then some u else lookupActive rest sock

/-- The assignment `activeUsers.set(sock, u)`: replace the entry if the key is present,
append otherwise. -/
def setActive : List (String × User) → String → User → List (String × User)
  | [], sock, u => [(sock, u)]
  | (k, v) :: rest, sock, u =>
    if k = sock then (k, u) :: rest else (k, v) :: setActive rest sock u

/-- Mutation of the `User` object stored under key `sock` (in the source
this is a field assignment through a shared object reference; the `Map`
entry is unchanged if the object is not in the map). -/
def updateActive : List (String × User) → String → User → List (String × User)
  | [], _, _ => []
  | (k, v) :: rest, sock, u =>
    if k = sock then (k, u) :: rest else (k, v) :: updateActive rest sock u

/-- The removal `activeUsers.delete(sock)`. -/
def deleteActive : List (String × User) → String → List (String × User)
  | [], _ => []
  | (k, v) :: rest, sock =>
    if k = sock then rest else (k, v) :: deleteActive rest sock

/-- The scan `Array.from(activeUsers.entries()).find(([, u]) => u.id === pid)`. -/
def findByUserId : List (String × User) → String → Option (String × User)
  | [], _ => none
  | (k, u) :: rest, pid => if u.id = pid then some (k, u) else findByUserId rest pid

/-- The helper `removeFromWaiting(userId)`: `findIndex` plus `splice(index, 1)` removes
the first entry with the given id, if any. -/
def removeFromWaiting (userId : String) : List User → List User
  | [] => []
  | u :: rest => if u.id = userId then rest else u :: removeFromWaiting userId rest

/-- First loop of `findPartner`: scan for the first waiting user that is
not the requester, has an `interests` array, and shares at least one
interest string with the requester's list `userInterests`; return it and
the pool with that entry spliced out. -/
def scanInterest (userId : String) (userInterests : List String) :
    List User → Option (User × List User)
  | [] => none
  | p :: rest =>
    if p.id ≠ userId ∧ p.interests.isSome ∧
        (userInterests.filter (fun i => (p.interests.getD []).contains i)) ≠ [] then
      some (p, rest)
    else
      match scanInterest userId userInterests rest with
      | some (q, rest2) => some (q, p :: rest2)
      | none => none

/-- Second loop of `findPartner`: first waiting user that is not the
requester, spliced out. -/
def scanAny (userId : String) : List User → Option (User × List User)
  | [] => none
  | p :: rest =>
    if p.id ≠ userId then some (p, rest)
    else
      match scanAny userId rest with
      | some (q, rest2) => some (q, p :: rest2)
      | none => none

/-- The matcher `findPartner(user)` of the source, with the mutable `waitingUsers`
array made explicit: returns the chosen partner (or `none`) together with
the array after the `splice`. -/
def findPartner (user : User) (pool : List User) : Option User × List User :=
  let tier1 :=
    match user.interests with
    | some l => if l.length > 0 then scanInterest user.id l pool else none
    | none => none
  match tier1 with
  | some (p, pool2) => (some p, pool2)
  | none =>
    match scanAny user.id pool with
    | some (p, pool2) => (some p, pool2)
    | none => (none, pool)

/-- Modelled from the spec (§4.3): "shares at least one element
(case-sensitive exact match)" between the two users' interest sets. -/
def sharesInterest (requester candidate : User) : Bool :=
  (requester.interests.getD []).any fun i => (candidate.interests.getD []).contains i

/-- Modelled from the spec (§4.2/§4.3): scan an arrival-ordered pool and
select-and-remove the first candidate satisfying `eligible`. -/
def selectFirst (eligible : User → Prop) [DecidablePred eligible] :
    List User → Option (User × List User)
  | [] => none
  | p :: rest =>
    if eligible p then some (p, rest)
    else
      match selectFirst eligible rest with
      | some (q, rest2) => some (q, p :: rest2)
      | none => none

/-- Modelled from the spec (§4.3): `selectPartner(requester, pool)` — the
interest-match tier, then the any-candidate tier, else `none`. -/
def selectPartner (requester : User) (pool : List User) : Option User × List User :=
  let step1 :=
    if requester.interests.getD [] ≠ [] then
      selectFirst (fun c => c.id ≠ requester.id ∧ sharesInterest requester c = true) pool
    else none
  match step1 with
  | some (c, pool2) => (some c, pool2)
  | none =>
    match selectFirst (fun c => c.id ≠ requester.id) pool with
    | some (c, pool2) => (some c, pool2)
    | none => (none, pool)

/-- One invocation of a socket.io event handler: given the global state,
the socket the event arrived on, and the event, produce the new state and
the transport instructions issued, in source order.  Direct transcription
of the handlers registered in `io.on("connection", ...)` (second server
file; `index.ts` is identical minus the game handlers). -/
def handleEvent (s : ServerState) (sock : String) : ClientEvent → ServerState × List Emit
  | .connect userId =>
    let user : User :=
      { id := userId, socketId := sock, interests := none, inChat := false, partnerId := none }
    let active := setActive s.activeUsers sock user
    ({ s with activeUsers := active },
      [.toSocket sock (.userIdEv userId), .toSocket sock (.onlineCount active.length),
        .broadcast (.onlineCount active.length)])
  | .findPartner interests =>
    match lookupActive s.activeUsers sock with
    | none => (s, [])
    | some currentUser =>
      let pool := removeFromWaiting currentUser.id s.waitingUsers
      let cu : User := { currentUser with interests := interests, inChat := false }
      let active1 := updateActive s.activeUsers sock cu
      match findPartner cu pool with
      | (some partner, pool2) =>
        let cu2 : User := { cu with partnerId := some partner.id, inChat := true }
        let partner2 : User := { partner with partnerId := some cu.id, inChat := true }
        let active2 := updateActive (updateActive active1 sock cu2) partner.socketId partner2
        let psConnected := (lookupActive active2 partner.socketId).isSome
        let roomId := "room-" ++ cu.id ++ "-" ++ partner.id
        ({ waitingUsers := pool2, activeUsers := active2 },
          [Emit.join sock roomId]
            ++ (if psConnected then [Emit.join partner.socketId roomId] else [])
            ++ [Emit.toSocket sock (.partnerFound partner.id roomId true)]
            ++ (if psConnected then
                  [Emit.toSocket partner.socketId (.partnerFound cu.id roomId false)]
                else []))
      | (none, pool2) =>
        ({ waitingUsers := pool2 ++ [cu], activeUsers := active1 },
          [.toSocket sock .waiting])
  | .cancelSearch =>
    match lookupActive s.activeUsers sock with
    | none => (s, [])
    | some currentUser =>
      ({ s with waitingUsers := removeFromWaiting currentUser.id s.waitingUsers },
        [.toSocket sock .searchCancelled])
  | .webrtcSignal signal roomId =>
    (s, [.toRoomExceptSender roomId sock (.webrtcSignal signal sock)])
  | .sendMessage message roomId msgId timestamp =>
    match lookupActive s.activeUsers sock with
    | none => (s, [])
    | some currentUser =>
      (s, [.toRoom roomId (.receiveMessage msgId currentUser.id message timestamp)])
  | .typing roomId isTyping =>
    (s, [.toRoomExceptSender roomId sock (.partnerTyping isTyping)])
  | .requestGame roomId gameType =>
    (s, [.toRoomExceptSender roomId sock (.gameRequest gameType)])
  | .acceptGame roomId gameType =>
    (s, [.toRoomExceptSender roomId sock (.gameAccepted gameType)])
  | .declineGame roomId gameType =>
    (s, [.toRoomExceptSender roomId sock (.gameDeclined gameType)])
  | .startGame roomId gameType =>
    (s, [.toRoomExceptSender roomId sock (.gameStarted gameType)])
  | .ticTacToeMove roomId index symbol =>
    (s, [.toRoomExceptSender roomId sock (.ticTacToeMove index symbol)])
  | .ticTacToePlayAgain roomId =>
    (s, [.toRoomExceptSender roomId sock .ticTacToePlayAgain])
  | .wyrChoice roomId choice =>
    (s, [.toRoomExceptSender roomId sock (.wyrChoice choice)])
  | .wyrNextQuestion roomId question =>
    (s, [.toRoomExceptSender roomId sock (.wyrNextQuestion question)])
  | .skipPartner =>
    match lookupActive s.activeUsers sock with
    | none => (s, [])
    | some currentUser =>
      match currentUser.partnerId with
      | none => (s, [])
      | some pid =>
        match findByUserId s.activeUsers pid with
        | some (partnerSocketId, partner) =>
          let partner2 : User := { partner with partnerId := none, inChat := false }
          let active1 := updateActive s.activeUsers partnerSocketId partner2
          let notif :=
            if (lookupActive active1 partnerSocketId).isSome then
              [Emit.toSocket partnerSocketId Event.partnerDisconnected]
            else []
          let cu2 : User := { currentUser with partnerId := none, inChat := false }
          ({ s with activeUsers := updateActive active1 sock cu2 },
            notif ++ [.toSocket sock .chatEnded])
        | none =>
          let cu2 : User := { currentUser with partnerId := none, inChat := false }
          ({ s with activeUsers := updateActive s.activeUsers sock cu2 },
            [.toSocket sock .chatEnded])
  | .disconnect =>
    match lookupActive s.activeUsers sock with
    | none => (s, [.broadcast (.onlineCount s.activeUsers.length)])
    | some currentUser =>
      let tearDown : List (String × User) × List Emit :=
        match currentUser.partnerId with
        | some pid =>
          match findByUserId s.activeUsers pid with
          | some (partnerSocketId, partner) =>
            let partner2 : User := { partner with partnerId := none, inChat := false }
            let a := updateActive s.activeUsers partnerSocketId partner2
            (a,
              if (lookupActive a partnerSocketId).isSome then
                [Emit.toSocket partnerSocketId Event.partnerDisconnected]
              else [])
          | none => (s.activeUsers, [])
        | none => (s.activeUsers, [])
      let pool := removeFromWaiting currentUser.id s.waitingUsers
      let active2 := deleteActive tearDown.1 sock
      ({ waitingUsers := pool, activeUsers := active2 },
        tearDown.2 ++ [.broadcast (.onlineCount active2.length)])

/-- Transport-layer room membership, accumulated from the `join`
instructions the handlers issue. -/
structure Transport where
  rooms : List (String × String)
  deriving Repr, DecidableEq

/-- Apply one transport instruction to the room-membership state. -/
def applyEmit (t : Transport) : Emit → Transport
  | .join sock room => { rooms := t.rooms ++ [(sock, room)] }
  | _ => t

/-- Is socket `sock` a member of room `room`? -/
def inRoom (t : Transport) (sock room : String) : Bool :=
  t.rooms.any fun e => e.1 == sock && e.2 == room

/-- Delivery semantics of one transport instruction: is the payload
delivered to connection `target`?  `join` delivers nothing; `broadcast`
reaches every connected client. -/
def deliversTo (t : Transport) (e : Emit) (target : String) : Bool :=
  match e with
  | .toSocket sockId _ => target == sockId
  | .toRoomExceptSender room sender _ => inRoom t target room && target != sender
  | .toRoom room _ => inRoom t target room
  | .broadcast _ => true
  | .join _ _ => false

/-- The payload carried by a transport instruction, if any. -/
def emitPayload : Emit → Option Event
  | .toSocket _ e => some e
  | .toRoomExceptSender _ _ e => some e
  | .toRoom _ e => some e
  | .broadcast e => some e
  | .join _ _ => none

/-- The empty server: no waiting users, no registered users, no rooms. -/
def initialState : ServerState × Transport := (⟨[], []⟩, ⟨[]⟩)

/-- Run a trace of inbound events, each tagged with the socket it arrives
on, accumulating server state and transport room state. -/
def runSystem : ServerState × Transport → List (String × ClientEvent) → ServerState × Transport
  | st, [] => st
  | (s, t), (sock, ev) :: rest =>
    let r := handleEvent s sock ev
    runSystem (r.1, r.2.foldl applyEmit t) rest

/-- The partner-symmetry invariant of the spec (§3): whenever two users
are both registered, each one's `partnerId` references the other's `id`
exactly when the converse holds. -/
def partnerSymmetric (s : ServerState) : Prop :=
  ∀ ka a kb b, (ka, a) ∈ s.activeUsers → (kb, b) ∈ s.activeUsers →
    (a.partnerId = some b.id ↔ b.partnerId = some a.id)

/-- The `partnerId`-presence invariant of the spec (§3): for every
registered user, `partnerId` is present exactly when `inChat` is true. -/
def partnerMatchesInChat (s : ServerState) : Prop :=
  ∀ e ∈ s.activeUsers, e.2.partnerId.isSome = e.2.inChat

/-- Environment assumptions on a step, reflecting the transport layer and
uuid generation: a `connection` event arrives only on a socket id that is
not currently connected, and the generated user id is fresh.  All other
events are unconstrained. -/
def ValidStep (s : ServerState) (sock : String) (ev : ClientEvent) : Prop :=
  match ev with
  | .connect uid =>
    lookupActive s.activeUsers sock = none ∧ ∀ e ∈ s.activeUsers, e.2.id ≠ uid
  | _ => True

/-- Server states reachable from the empty server by valid steps; the
states "between event processing" at which the spec's invariants are
observed. -/
inductive Reachable : ServerState → Prop where
  | init : Reachable ⟨[], []⟩
  | step {s : ServerState} {sock : String} {ev : ClientEvent} :
      Reachable s → ValidStep s sock ev → Reachable (handleEvent s sock ev).1

/-- The fields of an outbound payload that the source populates from a raw
transport socket id.  By inspection of every `emit` call in both server
files, only the `from` field of the relayed `webrtc-signal` payload is
filled from a socket id (`from: socket.id`); no other payload shape has a
socket-id-valued field. -/
def payloadSocketRefs : Event → List String
  | .webrtcSignal _ f => [f]
  | _ => []

/-- A minimal pairing scenario: `A` (socket `s1`) and `B` (socket `s2`)
connect, `A` requests a partner and waits, `B` requests and is matched
with `A`; the session room is `room-B-A` and both sockets joined it. -/
def pairTrace : List (String × ClientEvent) :=
  [("s1", .connect "A"), ("s2", .connect "B"),
   ("s1", .findPartner none), ("s2", .findPartner none)]

/-- The server and transport state after `pairTrace`. -/
def pairedState : ServerState × Transport := runSystem initialState pairTrace

/-- C1: the claim says partner symmetry holds after every sequence of
connect / find-partner / disconnect events.  The code violates it: after
`A` and `B` are paired, `C` starts waiting and `A` issues a second
`find-partner`, `A` is re-matched with `C` while `B`'s `partnerId` still
references `A` — `B.partnerId = A.id` but `A.partnerId = C.id ≠ B.id`
with both registered.  The `find-partner` handler never clears the stale
pairing of a user that re-requests while paired. -/
theorem find_partner_rematch_breaks_symmetry :
    ¬ partnerSymmetric (runSystem initialState
      [("s1", .connect "A"), ("s2", .connect "B"), ("s3", .connect "C"),
       ("s1", .findPartner none), ("s2", .findPartner none),
       ("s3", .findPartner none), ("s1", .findPartner none)]).1 := by
  intro h
  have hBA := (h "s2"
      { id := "B", socketId := "s2", interests := none, inChat := true, partnerId := some "A" }
      "s1"
      { id := "A", socketId := "s1", interests := none, inChat := true, partnerId := some "C" }
      (by decide) (by decide)).mp (by decide)
  exact absurd hBA (by decide)

/-- C4: the claim says `partnerId` is present iff `inChat` is true for
every registered user at every observable point.  The code violates it:
after `A` and `B` are paired and `A` issues a second `find-partner` with
an empty pool, `A` is re-enqueued with `inChat = false` while its
`partnerId` still references `B`. -/
theorem find_partner_requeue_keeps_stale_partnerId :
    ¬ partnerMatchesInChat (runSystem initialState
      [("s1", .connect "A"), ("s2", .connect "B"),
       ("s1", .findPartner none), ("s2", .findPartner none),
       ("s1", .findPartner none)]).1 := by
  intro h
  exact absurd
    (h ("s1",
        { id := "A", socketId := "s1", interests := none, inChat := false, partnerId := some "B" })
      (by decide))
    (by decide)

/-- C3 counterexample: the claim says every in-session relay family —
including send-message/chat — is never delivered back to the sender.  The
`send-message` handler uses `io.to(roomId).emit(...)`, which includes the
sender: in the paired scenario, `A`'s chat message is delivered back to
`A`'s own connection `s1`. -/
theorem send_message_echoed_to_sender :
    (handleEvent pairedState.1 "s1" (.sendMessage "hi" "room-B-A" "m1" 0)).2
      = [Emit.toRoom "room-B-A" (Event.receiveMessage "m1" "A" "hi" 0)]
    ∧ deliversTo pairedState.2
        (Emit.toRoom "room-B-A" (Event.receiveMessage "m1" "A" "hi" 0)) "s1" = true := by
  decide

/-- C5 counterexample: the claim says an inbound event on a connection
with no registered User is a silent no-op with no notification to any
client.  The `webrtc-signal` handler never consults the registry: a
signal from the unregistered socket `s3` is still relayed into the room
and delivered to `A`'s connection `s1`. -/
theorem unregistered_signal_still_relayed :
    lookupActive pairedState.1.activeUsers "s3" = none
    ∧ (handleEvent pairedState.1 "s3" (.webrtcSignal "x" "room-B-A")).2
        = [Emit.toRoomExceptSender "room-B-A" "s3" (Event.webrtcSignal "x" "s3")]
    ∧ deliversTo pairedState.2
        (Emit.toRoomExceptSender "room-B-A" "s3" (Event.webrtcSignal "x" "s3")) "s1" = true := by
  decide

/-- C9 counterexample: the claim says a user's raw transport connection
identity (`socketId`) is never included in any payload delivered to
another user.  The `webrtc-signal` handler relays
`{ signal, from: socket.id }`: in the paired scenario, the payload
delivered to `B`'s connection `s2` carries `A`'s socket id `s1` — which
is exactly `A`'s registered `socketId`. -/
theorem webrtc_relay_exposes_socket_id :
    (handleEvent pairedState.1 "s1" (.webrtcSignal "sdp" "room-B-A")).2
      = [Emit.toRoomExceptSender "room-B-A" "s1" (Event.webrtcSignal "sdp" "s1")]
    ∧ "s1" ∈ payloadSocketRefs (Event.webrtcSignal "sdp" "s1")
    ∧ deliversTo pairedState.2
        (Emit.toRoomExceptSender "room-B-A" "s1" (Event.webrtcSignal "sdp" "s1")) "s2" = true
    ∧ (lookupActive pairedState.1.activeUsers "s1").map User.socketId = some "s1" := by
  decide

/-- C10: for a registered user, `cancel-search` always dequeues by id and
emits `search-cancelled` back to the requester — whether or not the user
is actually in the waiting pool — and for an unregistered connection it
changes nothing and emits nothing. -/
theorem cancel_search_behavior (s : ServerState) (sock : String) :
    (lookupActive s.activeUsers sock = none →
        handleEvent s sock .cancelSearch = (s, []))
    ∧ (∀ u, lookupActive s.activeUsers sock = some u →
        handleEvent s sock .cancelSearch
          = ({ s with waitingUsers := removeFromWaiting u.id s.waitingUsers },
              [.toSocket sock .searchCancelled])) := by
  constructor
  · intro h
    simp [handleEvent, h]
  · intro u h
    simp [handleEvent, h]

/-- Witness for C10: in the paired scenario `A` is registered but not
waiting; `cancel-search` on `s1` still emits `search-cancelled`. -/
theorem cancel_search_behavior_witness :
    handleEvent pairedState.1 "s1" ClientEvent.cancelSearch
      = ({ pairedState.1 with waitingUsers := [] },
          [Emit.toSocket "s1" Event.searchCancelled]) := by
  have h := (cancel_search_behavior pairedState.1 "s1").2
    { id := "A", socketId := "s1", interests := none, inChat := true, partnerId := some "B" }
    (by decide)
  rw [h]
  decide

theorem selectFirst_congr {p q : User → Prop} [DecidablePred p] [DecidablePred q]
    (h : ∀ u, p u ↔ q u) (l : List User) : selectFirst p l = selectFirst q l := by
  induction l with
  | nil => rfl
  | cons a rest ih =>
    simp only [selectFirst]
    rw [ih]
    exact if_congr (h a) rfl rfl

theorem selectFirst_eq_none {p : User → Prop} [DecidablePred p] (l : List User) :
    selectFirst p l = none ↔ ∀ u ∈ l, ¬ p u := by
  induction l with
  | nil => simp [selectFirst]
  | cons a rest ih =>
    constructor
    · intro h u hu
      simp only [selectFirst] at h
      by_cases ha : p a
      · simp [ha] at h
      · rw [if_neg ha] at h
        cases hrest : selectFirst p rest with
        | some v =>
          obtain ⟨q, r2⟩ := v
          rw [hrest] at h
          simp at h
        | none =>
          rcases List.mem_cons.mp hu with rfl | hu2
          · exact ha
          · exact (ih.mp hrest) u hu2
    · intro hall
      simp only [selectFirst]
      rw [if_neg (hall a (List.mem_cons_self a rest))]
      rw [ih.mpr fun u hu => hall u (List.mem_cons_of_mem a hu)]

theorem scanAny_eq_selectFirst (uid : String) (l : List User) :
    scanAny uid l = selectFirst (fun c => c.id ≠ uid) l := by
  induction l with
  | nil => rfl
  | cons a rest ih =>
    simp only [scanAny, selectFirst]
    rw [ih]

theorem interest_cond_iff (uid : String) (l : List String) (p : User) :
    (p.id ≠ uid ∧ p.interests.isSome ∧
        (l.filter fun i => (p.interests.getD []).contains i) ≠ [])
      ↔ (p.id ≠ uid ∧ (l.any fun i => (p.interests.getD []).contains i) = true) := by
  cases hI : p.interests with
  | none =>
    simp [hI, List.any_eq_true]
  | some li =>
    simp only [hI, Option.isSome_some, Option.getD_some]
    constructor
    · rintro ⟨h1, _, h3⟩
      refine ⟨h1, ?_⟩
      rw [List.any_eq_true]
      by_contra hno
      push_neg at hno
      exact h3 (List.filter_eq_nil_iff.mpr fun a ha => by simpa using hno a ha)
    · rintro ⟨h1, h2⟩
      refine ⟨h1, trivial, ?_⟩
      rw [List.any_eq_true] at h2
      obtain ⟨x, hx, hc⟩ := h2
      intro hnil
      exact absurd hc (by simpa using List.filter_eq_nil_iff.mp hnil x hx)

theorem scanInterest_eq_selectFirst (uid : String) (l : List String) (pool : List User) :
    scanInterest uid l pool
      = selectFirst
          (fun c => c.id ≠ uid ∧ (l.any fun i => (c.interests.getD []).contains i) = true)
          pool := by
  induction pool with
  | nil => rfl
  | cons p rest ih =>
    simp only [scanInterest, selectFirst]
    rw [ih]
    exact if_congr (interest_cond_iff uid l p) rfl rfl

theorem findPartner_eq_selectPartner (user : User) (pool : List User) :
    findPartner user pool = selectPartner user pool := by
  have heq : findPartner user pool = selectPartner user pool := by
    unfold findPartner selectPartner
    cases hI : user.interests with
    | none =>
      simp only [scanAny_eq_selectFirst]
      simp
    | some l =>
      rcases eq_or_ne l [] with rfl | hl
      · simp only [scanAny_eq_selectFirst]
        simp
      · have hlen : l.length > 0 := List.length_pos.mpr hl
        have hcong :
            selectFirst
                (fun c => c.id ≠ user.id ∧ (l.any fun i => (c.interests.getD []).contains i) = true)
                pool
              = selectFirst (fun c => c.id ≠ user.id ∧ sharesInterest user c = true) pool :=
          selectFirst_congr (fun u => by simp [sharesInterest, hI]) pool
        simp only [scanInterest_eq_selectFirst, scanAny_eq_selectFirst, hcong]
        simp [hlen, hl]
  exact heq

theorem findPartner_none_iff (user : User) (pool : List User) :
    (findPartner user pool).1 = none ↔ ∀ p ∈ pool, p.id = user.id := by
  rw [findPartner_eq_selectPartner]
  constructor
  · intro hnone p hp
    by_contra hne
    simp only [selectPartner] at hnone
    cases h1 : (if user.interests.getD [] ≠ [] then
        selectFirst (fun c => c.id ≠ user.id ∧ sharesInterest user c = true) pool
      else none) with
    | some v =>
      obtain ⟨c, pool2⟩ := v
      rw [h1] at hnone
      simp at hnone
    | none =>
      rw [h1] at hnone
      cases h2 : selectFirst (fun c => c.id ≠ user.id) pool with
      | some v =>
        obtain ⟨c, pool2⟩ := v
        rw [h2] at hnone
        simp at hnone
      | none =>
        exact ((selectFirst_eq_none pool).mp h2 p hp) hne
  · intro hall
    have h2 : selectFirst (fun c => c.id ≠ user.id) pool = none :=
      (selectFirst_eq_none pool).mpr fun u hu => by simp [hall u hu]
    have h1 : selectFirst (fun c => c.id ≠ user.id ∧ sharesInterest user c = true) pool = none :=
      (selectFirst_eq_none pool).mpr fun u hu => by simp [hall u hu]
    by_cases hg : user.interests.getD [] ≠ []
    · simp [selectPartner, hg, h1, h2]
    · simp [selectPartner, hg, h2]

/-- C2: the matcher of the source equals the spec's two-tier
`selectPartner` (interest tier strictly first, first-arrival order within
each tier, selection removes the candidate from the pool), and it returns
no partner exactly when every pool entry is the requester itself (which
covers the empty pool). -/
theorem findPartner_matches_selectPartner (user : User) (pool : List User) :
    findPartner user pool = selectPartner user pool
    ∧ ((findPartner user pool).1 = none ↔ ∀ p ∈ pool, p.id = user.id) :=
  ⟨findPartner_eq_selectPartner user pool, findPartner_none_iff user pool⟩

theorem lookupActive_isSome_of_mem {m : List (String × User)} {k : String} {u : User}
    (h : (k, u) ∈ m) : (lookupActive m k).isSome = true := by
  induction m with
  | nil => cases h
  | cons e rest ih =>
    obtain ⟨k0, v⟩ := e
    rcases List.mem_cons.mp h with heq | hmem
    · cases heq
      simp [lookupActive]
    · by_cases hk : k0 = k
      · simp [lookupActive, hk]
      · simpa [lookupActive, hk] using ih hmem

theorem findByUserId_mem {m : List (String × User)} {pid k : String} {u : User}
    (h : findByUserId m pid = some (k, u)) : (k, u) ∈ m ∧ u.id = pid := by
  induction m with
  | nil => cases h
  | cons e rest ih =>
    obtain ⟨k0, v⟩ := e
    by_cases hv : v.id = pid
    · simp [findByUserId, hv] at h
      exact ⟨by simp [h.1, h.2], h.2 ▸ hv⟩
    · simp only [findByUserId, hv, if_neg, if_false] at h
      have := ih h
      exact ⟨List.mem_cons_of_mem _ this.1, this.2⟩

theorem lookupActive_updateActive_self {m : List (String × User)} {k : String} {v : User} :
    lookupActive (updateActive m k v) k = (lookupActive m k).map fun _ => v := by
  induction m with
  | nil => rfl
  | cons e rest ih =>
    obtain ⟨k0, u⟩ := e
    by_cases hk : k0 = k
    · simp [updateActive, lookupActive, hk]
    · simp [updateActive, lookupActive, hk, ih]

theorem lookupActive_updateActive_ne {m : List (String × User)} {k k2 : String} {v : User}
    (h : k2 ≠ k) : lookupActive (updateActive m k v) k2 = lookupActive m k2 := by
  induction m with
  | nil => rfl
  | cons e rest ih =>
    obtain ⟨k0, u⟩ := e
    by_cases hk : k0 = k
    · subst hk
      simp [updateActive, lookupActive, Ne.symm h, ih]
    · by_cases hk2 : k0 = k2
      · simp [updateActive, lookupActive, hk, hk2, h]
      · simp [updateActive, lookupActive, hk, hk2, ih]

theorem updateActive_keys {m : List (String × User)} {k : String} {v : User} :
    (updateActive m k v).map Prod.fst = m.map Prod.fst := by
  induction m with
  | nil => rfl
  | cons e rest ih =>
    obtain ⟨k0, u⟩ := e
    by_cases hk : k0 = k
    · simp [updateActive, hk]
    · simp [updateActive, hk, ih]

theorem updateActive_ids {m : List (String × User)} {k : String} {u v : User}
    (hlk : lookupActive m k = some u) (hid : u.id = v.id) :
    (updateActive m k v).map (fun e => e.2.id) = m.map (fun e => e.2.id) := by
  induction m with
  | nil => rfl
  | cons e rest ih =>
    obtain ⟨k0, w⟩ := e
    by_cases hk : k0 = k
    · simp [lookupActive, hk] at hlk
      simp [updateActive, hk, hlk ▸ hid.symm]
    · simp only [lookupActive, hk, if_neg, if_false] at hlk
      simp [updateActive, hk, ih hlk]

theorem mem_updateActive {m : List (String × User)} {k : String} {v : User} {e : String × User}
    (he : e ∈ updateActive m k v) : e ∈ m ∨ e = (k, v) := by
  induction m with
  | nil => cases he
  | cons e0 rest ih =>
    obtain ⟨k0, u⟩ := e0
    by_cases hk : k0 = k
    · simp only [updateActive, hk, if_pos] at he
      rcases List.mem_cons.mp he with rfl | hmem
      · exact Or.inr rfl
      · exact Or.inl (List.mem_cons_of_mem _ hmem)
    · simp only [updateActive, hk, if_neg, if_false] at he
      rcases List.mem_cons.mp he with rfl | hmem
      · exact Or.inl (List.mem_cons_self _ _)
      · rcases ih hmem with h | h
        · exact Or.inl (List.mem_cons_of_mem _ h)
        · exact Or.inr h

theorem updateActive_of_lookup_none {m : List (String × User)} {k : String} {v : User}
    (h : lookupActive m k = none) : updateActive m k v = m := by
  induction m with
  | nil => rfl
  | cons e rest ih =>
    obtain ⟨k0, u⟩ := e
    by_cases hk : k0 = k
    · simp [lookupActive, hk] at h
    · simp only [lookupActive, hk, if_neg, if_false] at h
      simp [updateActive, hk, ih h]

theorem deleteActive_sublist (m : List (String × User)) (k : String) :
    (deleteActive m k).Sublist m := by
  induction m with
  | nil => simp [deleteActive]
  | cons e rest ih =>
    obtain ⟨k0, u⟩ := e
    by_cases hk : k0 = k
    · simp only [deleteActive, hk, if_pos]
      exact List.sublist_cons_self _ _
    · simp only [deleteActive, hk, if_neg, if_false]
      exact ih.cons₂ _

theorem lookupActive_deleteActive_ne {m : List (String × User)} {k k2 : String}
    (hnd : (m.map Prod.fst).Nodup) (h : k2 ≠ k) :
    lookupActive (deleteActive m k) k2 = lookupActive m k2 := by
  induction m with
  | nil => rfl
  | cons e rest ih =>
    obtain ⟨k0, u⟩ := e
    simp only [List.map_cons, List.nodup_cons] at hnd
    by_cases hk : k0 = k
    · subst hk
      simp [deleteActive, lookupActive, Ne.symm h]
    · by_cases hk2 : k0 = k2
      · simp [deleteActive, lookupActive, hk, hk2, h]
      · simp [deleteActive, lookupActive, hk, hk2, ih hnd.2]

theorem setActive_of_lookup_none {m : List (String × User)} {k : String} {v : User}
    (h : lookupActive m k = none) : setActive m k v = m ++ [(k, v)] := by
  induction m with
  | nil => rfl
  | cons e rest ih =>
    obtain ⟨k0, u⟩ := e
    by_cases hk : k0 = k
    · simp [lookupActive, hk] at h
    · simp only [lookupActive, hk, if_neg, if_false] at h
      simp [setActive, hk, ih h]

theorem removeFromWaiting_sublist (userId : String) (pool : List User) :
    (removeFromWaiting userId pool).Sublist pool := by
  induction pool with
  | nil => simp [removeFromWaiting]
  | cons u rest ih =>
    by_cases hu : u.id = userId
    · simp only [removeFromWaiting, hu, if_pos]
      exact List.sublist_cons_self _ _
    · simp only [removeFromWaiting, hu, if_neg, if_false]
      exact ih.cons₂ _

theorem removeFromWaiting_not_mem_ids {userId : String} {pool : List User}
    (hnd : (pool.map User.id).Nodup) :
    userId ∉ (removeFromWaiting userId pool).map User.id := by
  induction pool with
  | nil => simp [removeFromWaiting]
  | cons u rest ih =>
    simp only [List.map_cons, List.nodup_cons] at hnd
    by_cases hu : u.id = userId
    · simp only [removeFromWaiting, hu, if_pos]
      rw [← hu]
      exact hnd.1
    · simp only [removeFromWaiting, hu, if_neg, if_false, List.map_cons, List.mem_cons]
      rintro (h | h)
      · exact hu h.symm
      · exact ih hnd.2 h

theorem selectFirst_perm {p : User → Prop} [DecidablePred p] {l rest : List User} {u : User}
    (h : selectFirst p l = some (u, rest)) : l.Perm (u :: rest) ∧ p u := by
  induction l generalizing rest with
  | nil => cases h
  | cons a tail ih =>
    simp only [selectFirst] at h
    by_cases ha : p a
    · rw [if_pos ha] at h
      simp only [Option.some.injEq, Prod.mk.injEq] at h
      obtain ⟨rfl, rfl⟩ := h
      exact ⟨List.Perm.refl _, ha⟩
    · rw [if_neg ha] at h
      cases htail : selectFirst p tail with
      | none => rw [htail] at h; cases h
      | some v =>
        obtain ⟨q, rest2⟩ := v
        rw [htail] at h
        simp only [Option.some.injEq, Prod.mk.injEq] at h
        obtain ⟨rfl, rfl⟩ := h
        obtain ⟨hperm, hq⟩ := ih htail
        exact ⟨(hperm.cons a).trans (List.Perm.swap q a rest2), hq⟩

theorem selectPartner_some_perm {user : User} {pool pool2 : List User} {p : User}
    (h : selectPartner user pool = (some p, pool2)) :
    pool.Perm (p :: pool2) ∧ p.id ≠ user.id := by
  simp only [selectPartner] at h
  by_cases hg : user.interests.getD [] ≠ []
  · rw [if_pos hg] at h
    cases h1 : selectFirst (fun c => c.id ≠ user.id ∧ sharesInterest user c = true) pool with
    | some v =>
      obtain ⟨c, r⟩ := v
      rw [h1] at h
      simp only [Prod.mk.injEq, Option.some.injEq] at h
      obtain ⟨rfl, rfl⟩ := h
      have hp := selectFirst_perm h1
      exact ⟨hp.1, hp.2.1⟩
    | none =>
      rw [h1] at h
      cases h2 : selectFirst (fun c => c.id ≠ user.id) pool with
      | some v =>
        obtain ⟨c, r⟩ := v
        rw [h2] at h
        simp only [Prod.mk.injEq, Option.some.injEq] at h
        obtain ⟨rfl, rfl⟩ := h
        exact selectFirst_perm h2
      | none =>
        rw [h2] at h
        simp at h
  · rw [if_neg hg] at h
    cases h2 : selectFirst (fun c => c.id ≠ user.id) pool with
    | some v =>
      obtain ⟨c, r⟩ := v
      rw [h2] at h
      simp only [Prod.mk.injEq, Option.some.injEq] at h
      obtain ⟨rfl, rfl⟩ := h
      exact selectFirst_perm h2
    | none =>
      rw [h2] at h
      simp at h

theorem selectPartner_none_pool {user : User} {pool pool2 : List User}
    (h : selectPartner user pool = (none, pool2)) : pool2 = pool := by
  simp only [selectPartner] at h
  by_cases hg : user.interests.getD [] ≠ []
  · rw [if_pos hg] at h
    cases h1 : selectFirst (fun c => c.id ≠ user.id ∧ sharesInterest user c = true) pool with
    | some v =>
      obtain ⟨c, r⟩ := v
      rw [h1] at h
      simp at h
    | none =>
      rw [h1] at h
      cases h2 : selectFirst (fun c => c.id ≠ user.id) pool with
      | some v =>
        obtain ⟨c, r⟩ := v
        rw [h2] at h
        simp at h
      | none =>
        rw [h2] at h
        simp only [Prod.mk.injEq] at h
        exact h.2.symm
  · rw [if_neg hg] at h
    cases h2 : selectFirst (fun c => c.id ≠ user.id) pool with
    | some v =>
      obtain ⟨c, r⟩ := v
      rw [h2] at h
      simp at h
    | none =>
      rw [h2] at h
      simp only [Prod.mk.injEq] at h
      exact h.2.symm

theorem findPartner_some_perm {user : User} {pool pool2 : List User} {p : User}
    (h : findPartner user pool = (some p, pool2)) :
    pool.Perm (p :: pool2) ∧ p.id ≠ user.id := by
  rw [findPartner_eq_selectPartner] at h
  exact selectPartner_some_perm h

theorem findPartner_none_pool {user : User} {pool pool2 : List User}
    (h : findPartner user pool = (none, pool2)) : pool2 = pool := by
  rw [findPartner_eq_selectPartner] at h
  exact selectPartner_none_pool h

theorem lookupActive_eq_of_mem_nodup {m : List (String × User)} {k : String} {u : User}
    (hm : (k, u) ∈ m) (hnd : (m.map Prod.fst).Nodup) : lookupActive m k = some u := by
  induction m with
  | nil => cases hm
  | cons e rest ih =>
    obtain ⟨k0, v⟩ := e
    simp only [List.map_cons, List.nodup_cons] at hnd
    rcases List.mem_cons.mp hm with heq | hmem
    · cases heq
      simp [lookupActive]
    · by_cases hk : k0 = k
      · subst hk
        exact absurd (List.mem_map_of_mem Prod.fst hmem) hnd.1
      · simpa [lookupActive, hk] using ih hmem hnd.2

theorem mem_keys_of_lookupActive {m : List (String × User)} {k : String} {u : User}
    (h : lookupActive m k = some u) : k ∈ m.map Prod.fst := by
  induction m with
  | nil => cases h
  | cons e rest ih =>
    obtain ⟨k0, v⟩ := e
    by_cases hk : k0 = k
    · simp [hk]
    · simp only [lookupActive, hk, if_neg, if_false] at h
      simp [ih h]

theorem lookupActive_deleteActive_self {m : List (String × User)} {k : String}
    (hnd : (m.map Prod.fst).Nodup) : lookupActive (deleteActive m k) k = none := by
  induction m with
  | nil => rfl
  | cons e rest ih =>
    obtain ⟨k0, u⟩ := e
    simp only [List.map_cons, List.nodup_cons] at hnd
    by_cases hk : k0 = k
    · subst hk
      simp only [deleteActive, if_pos]
      cases hcur : lookupActive rest k0 with
      | none => rfl
      | some v => exact absurd (mem_keys_of_lookupActive hcur) hnd.1
    · simp [deleteActive, lookupActive, hk, ih hnd.2]

/-- C7: tearing down a pairing.  `skip-partner` on a registered user with
no partner is a complete no-op; when the `partnerId` references a user
that is no longer in the registry, no `partner-disconnected` is sent to
anyone (for skip only `chat-ended` goes back to the requester, for
disconnect only the online-count broadcast goes out); when the partner is
still registered, both sides' `partnerId`/`inChat` are cleared (for
disconnect the leaver is removed entirely), exactly one
`partner-disconnected` is emitted and it goes to the partner's socket,
and no third user's record is touched.  `handleEvent` is total, so no
case can throw. -/
theorem teardown_safe (s : ServerState) (sock : String) :
    (∀ u, lookupActive s.activeUsers sock = some u → u.partnerId = none →
      handleEvent s sock .skipPartner = (s, []))
    ∧ (∀ u pid, lookupActive s.activeUsers sock = some u → u.partnerId = some pid →
        findByUserId s.activeUsers pid = none →
        (handleEvent s sock .skipPartner).2 = [.toSocket sock .chatEnded])
    ∧ (∀ u pid psock p, lookupActive s.activeUsers sock = some u →
        u.partnerId = some pid → findByUserId s.activeUsers pid = some (psock, p) →
        psock ≠ sock → (s.activeUsers.map Prod.fst).Nodup →
        lookupActive (handleEvent s sock .skipPartner).1.activeUsers sock
            = some { u with partnerId := none, inChat := false }
        ∧ lookupActive (handleEvent s sock .skipPartner).1.activeUsers psock
            = some { p with partnerId := none, inChat := false }
        ∧ (handleEvent s sock .skipPartner).2
            = [.toSocket psock .partnerDisconnected, .toSocket sock .chatEnded]
        ∧ (∀ k, k ≠ sock → k ≠ psock →
            lookupActive (handleEvent s sock .skipPartner).1.activeUsers k
              = lookupActive s.activeUsers k)
        ∧ (handleEvent s sock .skipPartner).1.waitingUsers = s.waitingUsers)
    ∧ (∀ u, lookupActive s.activeUsers sock = some u → u.partnerId = none →
        (handleEvent s sock .disconnect).2
          = [.broadcast (.onlineCount (deleteActive s.activeUsers sock).length)])
    ∧ (∀ u pid, lookupActive s.activeUsers sock = some u → u.partnerId = some pid →
        findByUserId s.activeUsers pid = none →
        (handleEvent s sock .disconnect).2
          = [.broadcast (.onlineCount (deleteActive s.activeUsers sock).length)])
    ∧ (∀ u pid psock p, lookupActive s.activeUsers sock = some u →
        u.partnerId = some pid → findByUserId s.activeUsers pid = some (psock, p) →
        psock ≠ sock → (s.activeUsers.map Prod.fst).Nodup →
        lookupActive (handleEvent s sock .disconnect).1.activeUsers psock
            = some { p with partnerId := none, inChat := false }
        ∧ lookupActive (handleEvent s sock .disconnect).1.activeUsers sock = none
        ∧ (handleEvent s sock .disconnect).2
            = [.toSocket psock .partnerDisconnected,
                .broadcast (.onlineCount (deleteActive
                  (updateActive s.activeUsers psock
                    { p with partnerId := none, inChat := false }) sock).length)]) := by
  refine ⟨?_, ?_, ?_, ?_, ?_, ?_⟩
  · intro u hlk hpid
    simp [handleEvent, hlk, hpid]
  · intro u pid hlk hpid hfind
    simp [handleEvent, hlk, hpid, hfind]
  · intro u pid psock p hlk hpid hfind hne hnd
    have hmem := findByUserId_mem hfind
    have hlkp : lookupActive s.activeUsers psock = some p :=
      lookupActive_eq_of_mem_nodup hmem.1 hnd
    have hres : handleEvent s sock ClientEvent.skipPartner
        = ({ s with activeUsers :=
              (updateActive (updateActive s.activeUsers psock
                ({ p with partnerId := none, inChat := false })) sock
                ({ u with partnerId := none, inChat := false })) },
            [Emit.toSocket psock Event.partnerDisconnected,
              Emit.toSocket sock Event.chatEnded]) := by
      simp only [handleEvent, hlk, hpid, hfind]
      rw [lookupActive_updateActive_self, hlkp]
      simp
    refine ⟨?_, ?_, ?_, ?_, ?_⟩
    · rw [hres]
      simp only
      rw [lookupActive_updateActive_self, lookupActive_updateActive_ne (Ne.symm hne), hlk]
      rfl
    · rw [hres]
      simp only
      rw [lookupActive_updateActive_ne hne, lookupActive_updateActive_self, hlkp]
      rfl
    · rw [hres]
    · intro k hk1 hk2
      rw [hres]
      simp only
      rw [lookupActive_updateActive_ne hk1, lookupActive_updateActive_ne hk2]
    · rw [hres]
  · intro u hlk hpid
    simp [handleEvent, hlk, hpid]
  · intro u pid hlk hpid hfind
    simp [handleEvent, hlk, hpid, hfind]
  · intro u pid psock p hlk hpid hfind hne hnd
    have hmem := findByUserId_mem hfind
    have hlkp : lookupActive s.activeUsers psock = some p :=
      lookupActive_eq_of_mem_nodup hmem.1 hnd
    have hnd1 : ((updateActive s.activeUsers psock
        { p with partnerId := none, inChat := false }).map Prod.fst).Nodup := by
      rw [updateActive_keys]
      exact hnd
    have hres : handleEvent s sock ClientEvent.disconnect
        = ({ waitingUsers := removeFromWaiting u.id s.waitingUsers,
             activeUsers := (deleteActive (updateActive s.activeUsers psock
                ({ p with partnerId := none, inChat := false })) sock) },
            [Emit.toSocket psock Event.partnerDisconnected,
              Emit.broadcast (Event.onlineCount (deleteActive
                (updateActive s.activeUsers psock
                  ({ p with partnerId := none, inChat := false })) sock).length)]) := by
      simp only [handleEvent, hlk, hpid, hfind]
      rw [lookupActive_updateActive_self, hlkp]
      simp
    refine ⟨?_, ?_, ?_⟩
    · rw [hres]
      simp only
      rw [lookupActive_deleteActive_ne hnd1 hne, lookupActive_updateActive_self, hlkp]
      rfl
    · rw [hres]
      simp only
      rw [lookupActive_deleteActive_self hnd1]
    · rw [hres]

/-- Witness for C7: in the paired scenario, `A` (socket `s1`, partner
`B`) skips: both records are cleared and `B`'s socket `s2` gets the one
`partner-disconnected`; if instead `A` disconnects, `A` is deregistered
and `B` is cleared and notified. -/
theorem teardown_safe_witness :
    lookupActive (handleEvent pairedState.1 "s1" .skipPartner).1.activeUsers "s2"
        = some { id := "B", socketId := "s2", interests := none, inChat := false,
                  partnerId := none }
    ∧ (handleEvent pairedState.1 "s1" .skipPartner).2
        = [.toSocket "s2" .partnerDisconnected, .toSocket "s1" .chatEnded]
    ∧ lookupActive (handleEvent pairedState.1 "s1" .disconnect).1.activeUsers "s1" = none
    ∧ (handleEvent pairedState.1 "s1" .disconnect).2
        = [.toSocket "s2" .partnerDisconnected, .broadcast (.onlineCount 1)] := by
  have h3 := (teardown_safe pairedState.1 "s1").2.2.1
    { id := "A", socketId := "s1", interests := none, inChat := true, partnerId := some "B" }
    "B" "s2"
    { id := "B", socketId := "s2", interests := none, inChat := true, partnerId := some "A" }
    (by decide) (by decide) (by decide) (by decide) (by decide)
  have h6 := (teardown_safe pairedState.1 "s1").2.2.2.2.2
    { id := "A", socketId := "s1", interests := none, inChat := true, partnerId := some "B" }
    "B" "s2"
    { id := "B", socketId := "s2", interests := none, inChat := true, partnerId := some "A" }
    (by decide) (by decide) (by decide) (by decide) (by decide)
  refine ⟨h3.2.1, h3.2.2.1, h6.2.1, ?_⟩
  rw [h6.2.2]
  decide

/-- Does this transport instruction carry a `partner-found` payload with
`initiator = true` to a single socket? -/
def isInitiatorTrueEmit : Emit → Bool
  | .toSocket _ (.partnerFound _ _ true) => true
  | _ => false

/-- C8: when a `find-partner` request from `sock` is matched, exactly one
`partner-found` notification carries `initiator = true` and it is
addressed to the requesting socket; every `partner-found` with
`initiator = false` is addressed to the socket of the partner pulled from
the pool. -/
theorem initiator_flag (s : ServerState) (sock : String) (ints : Option (List String))
    (u partner : User) (pool2 : List User)
    (hlk : lookupActive s.activeUsers sock = some u)
    (hfp : findPartner ({ u with interests := ints, inChat := false })
        (removeFromWaiting u.id s.waitingUsers) = (some partner, pool2)) :
    ((handleEvent s sock (.findPartner ints)).2.filter isInitiatorTrueEmit)
      = [.toSocket sock (.partnerFound partner.id ("room-" ++ u.id ++ "-" ++ partner.id) true)]
    ∧ ∀ k pid room, Emit.toSocket k (.partnerFound pid room false)
          ∈ (handleEvent s sock (.findPartner ints)).2 →
        k = partner.socketId ∧ pid = u.id := by
  obtain ⟨c, hres⟩ : ∃ c : Bool,
      (handleEvent s sock (.findPartner ints)).2
        = [Emit.join sock ("room-" ++ u.id ++ "-" ++ partner.id)]
          ++ (if c then
                [Emit.join partner.socketId ("room-" ++ u.id ++ "-" ++ partner.id)]
              else [])
          ++ [Emit.toSocket sock
                (.partnerFound partner.id ("room-" ++ u.id ++ "-" ++ partner.id) true)]
          ++ (if c then
                [Emit.toSocket partner.socketId
                  (.partnerFound u.id ("room-" ++ u.id ++ "-" ++ partner.id) false)]
              else []) :=
    ⟨_, by simp only [handleEvent, hlk, hfp]; rfl⟩
  rw [hres]
  cases c with
  | false =>
    refine ⟨by simp [isInitiatorTrueEmit], ?_⟩
    intro k pid room hmem
    simp at hmem
  | true =>
    refine ⟨by simp [isInitiatorTrueEmit], ?_⟩
    intro k pid room hmem
    simp at hmem
    exact ⟨hmem.1, hmem.2.1⟩

/-- One step before the pairing: `A` (socket `s1`) is alone in the
waiting pool, `B` (socket `s2`) is registered and idle. -/
def waitingState : ServerState × Transport :=
  runSystem initialState
    [("s1", .connect "A"), ("s2", .connect "B"), ("s1", .findPartner none)]

/-- Witness for C8: `B`'s `find-partner` pulls `A` from the pool; the one
`initiator = true` notification goes to the requester `B` (socket `s2`). -/
theorem initiator_flag_witness :
    ((handleEvent waitingState.1 "s2" (.findPartner none)).2.filter isInitiatorTrueEmit)
      = [.toSocket "s2" (.partnerFound "A" ("room-" ++ "B" ++ "-" ++ "A") true)] := by
  have h := initiator_flag waitingState.1 "s2" none
    { id := "B", socketId := "s2", interests := none, inChat := false, partnerId := none }
    { id := "A", socketId := "s1", interests := none, inChat := false, partnerId := none }
    [] (by decide) (by decide)
  exact h.1

/-- C3 (amended): every in-session relay family except chat
(`webrtc-signal`, `typing`, and the game events) is emitted with
`socket.to(roomId)`, whose delivery reaches exactly the other connections
grouped under the room label and never the sender; `send-message` alone
is emitted with `io.to(roomId)`, which delivers the chat message to every
connection in the room, the sender's own connection included. -/
theorem relay_delivery (s : ServerState) (t : Transport) (sock room target : String) :
    (∀ sig, (handleEvent s sock (.webrtcSignal sig room)).2
        = [.toRoomExceptSender room sock (.webrtcSignal sig sock)])
    ∧ (∀ b, (handleEvent s sock (.typing room b)).2
        = [.toRoomExceptSender room sock (.partnerTyping b)])
    ∧ (∀ g, (handleEvent s sock (.requestGame room g)).2
        = [.toRoomExceptSender room sock (.gameRequest g)])
    ∧ (∀ g, (handleEvent s sock (.acceptGame room g)).2
        = [.toRoomExceptSender room sock (.gameAccepted g)])
    ∧ (∀ g, (handleEvent s sock (.declineGame room g)).2
        = [.toRoomExceptSender room sock (.gameDeclined g)])
    ∧ (∀ g, (handleEvent s sock (.startGame room g)).2
        = [.toRoomExceptSender room sock (.gameStarted g)])
    ∧ (∀ i sym, (handleEvent s sock (.ticTacToeMove room i sym)).2
        = [.toRoomExceptSender room sock (.ticTacToeMove i sym)])
    ∧ ((handleEvent s sock (.ticTacToePlayAgain room)).2
        = [.toRoomExceptSender room sock .ticTacToePlayAgain])
    ∧ (∀ ch, (handleEvent s sock (.wyrChoice room ch)).2
        = [.toRoomExceptSender room sock (.wyrChoice ch)])
    ∧ (∀ q, (handleEvent s sock (.wyrNextQuestion room q)).2
        = [.toRoomExceptSender room sock (.wyrNextQuestion q)])
    ∧ (∀ ev, deliversTo t (.toRoomExceptSender room sock ev) target
        = (inRoom t target room && target != sock))
    ∧ (∀ ev, deliversTo t (.toRoomExceptSender room sock ev) sock = false)
    ∧ (∀ u msg mid ts, lookupActive s.activeUsers sock = some u →
        (handleEvent s sock (.sendMessage msg room mid ts)).2
          = [.toRoom room (.receiveMessage mid u.id msg ts)])
    ∧ (∀ ev, deliversTo t (.toRoom room ev) target = inRoom t target room) := by
  refine ⟨fun sig => rfl, fun b => rfl, fun g => rfl, fun g => rfl, fun g => rfl,
    fun g => rfl, fun i sym => rfl, rfl, fun ch => rfl, fun q => rfl, fun ev => rfl,
    fun ev => by simp [deliversTo], fun u msg mid ts h => by simp [handleEvent, h],
    fun ev => rfl⟩

/-- Witness for C3 (amended), in the paired scenario: `A`'s typing
indicator is relayed to `B` but never delivered back to `A`, while `A`'s
chat message is delivered back to `A`'s own connection. -/
theorem relay_delivery_witness :
    (handleEvent pairedState.1 "s1" (.typing "room-B-A" true)).2
      = [.toRoomExceptSender "room-B-A" "s1" (.partnerTyping true)]
    ∧ deliversTo pairedState.2
        (.toRoomExceptSender "room-B-A" "s1" (.partnerTyping true)) "s2" = true
    ∧ deliversTo pairedState.2
        (.toRoomExceptSender "room-B-A" "s1" (.partnerTyping true)) "s1" = false
    ∧ (handleEvent pairedState.1 "s1" (.sendMessage "hi" "room-B-A" "m1" 0)).2
      = [.toRoom "room-B-A" (.receiveMessage "m1" "A" "hi" 0)]
    ∧ deliversTo pairedState.2
        (.toRoom "room-B-A" (.receiveMessage "m1" "A" "hi" 0)) "s1" = true := by
  obtain ⟨h1, h2, h3, h4, h5, h6, h7, h8, h9, h10, h11, h12, h13, h14⟩ :=
    relay_delivery pairedState.1 pairedState.2 "s1" "room-B-A" "s2"
  obtain ⟨g1, g2, g3, g4, g5, g6, g7, g8, g9, g10, g11, g12, g13, g14⟩ :=
    relay_delivery pairedState.1 pairedState.2 "s1" "room-B-A" "s1"
  refine ⟨h2 true, ?_, h12 (.partnerTyping true),
    h13 { id := "A", socketId := "s1", interests := none, inChat := true,
          partnerId := some "B" } "hi" "m1" 0 (by decide), ?_⟩
  · rw [h11 (.partnerTyping true)]
    decide
  · rw [g14 (.receiveMessage "m1" "A" "hi" 0)]
    decide

/-- C5 (amended): for a connection with no registered User, the
`find-partner`, `cancel-search`, `send-message` and `skip-partner`
handlers are silent no-ops; `disconnect` changes no state but still
broadcasts the online count to everyone; and the `webrtc-signal`,
`typing` and game relay handlers never consult the registry, so they
still forward the event into the named room. -/
theorem unknown_connection_behavior (s : ServerState) (sock : String)
    (h : lookupActive s.activeUsers sock = none) :
    (∀ ints, handleEvent s sock (.findPartner ints) = (s, []))
    ∧ handleEvent s sock .cancelSearch = (s, [])
    ∧ (∀ msg room mid ts, handleEvent s sock (.sendMessage msg room mid ts) = (s, []))
    ∧ handleEvent s sock .skipPartner = (s, [])
    ∧ handleEvent s sock .disconnect
        = (s, [.broadcast (.onlineCount s.activeUsers.length)])
    ∧ (∀ sig room, handleEvent s sock (.webrtcSignal sig room)
        = (s, [.toRoomExceptSender room sock (.webrtcSignal sig sock)]))
    ∧ (∀ room b, handleEvent s sock (.typing room b)
        = (s, [.toRoomExceptSender room sock (.partnerTyping b)]))
    ∧ (∀ room g, handleEvent s sock (.requestGame room g)
        = (s, [.toRoomExceptSender room sock (.gameRequest g)])) := by
  refine ⟨fun ints => by simp [handleEvent, h], by simp [handleEvent, h],
    fun msg room mid ts => by simp [handleEvent, h], by simp [handleEvent, h],
    by simp [handleEvent, h], fun sig room => rfl, fun room b => rfl, fun room g => rfl⟩

/-- Witness for C5 (amended): socket `s3` is not registered in the paired
scenario; its `skip-partner` is a silent no-op while its `webrtc-signal`
is still relayed into the room. -/
theorem unknown_connection_behavior_witness :
    handleEvent pairedState.1 "s3" .skipPartner = (pairedState.1, [])
    ∧ handleEvent pairedState.1 "s3" (.webrtcSignal "x" "room-B-A")
        = (pairedState.1, [.toRoomExceptSender "room-B-A" "s3" (.webrtcSignal "x" "s3")]) := by
  have h := unknown_connection_behavior pairedState.1 "s3" (by decide)
  exact ⟨h.2.2.2.1, h.2.2.2.2.2.1 "x" "room-B-A"⟩

theorem mem_of_mem_ite {c : Prop} [Decidable c] {l : List Emit} {e : Emit}
    (h : e ∈ (if c then l else [])) : e ∈ l := by
  split at h
  · exact h
  · cases h

/-- C9 (amended): the only outbound payload that carries a socket id is
the `webrtc-signal` relay, whose `from` field is the sender's own socket
id (and which `socket.to(roomId)` sends to the other room members); every
payload emitted by every other handler has no socket-id field at all. -/
theorem socket_refs_only_webrtc_from (s : ServerState) (sock : String) (ev : ClientEvent) :
    ∀ e ∈ (handleEvent s sock ev).2, ∀ p, emitPayload e = some p →
      payloadSocketRefs p = []
      ∨ ∃ sig room, ev = .webrtcSignal sig room
          ∧ e = .toRoomExceptSender room sock (.webrtcSignal sig sock) := by
  intro e he p hp
  cases ev with
  | connect uid =>
    simp only [handleEvent, List.mem_cons, List.mem_singleton, List.not_mem_nil,
      or_false] at he
    rcases he with rfl | rfl | rfl <;>
      (left; cases Option.some.inj hp; rfl)
  | findPartner ints =>
    simp only [handleEvent] at he
    cases hlk : lookupActive s.activeUsers sock with
    | none =>
      simp only [hlk] at he
      cases he
    | some u =>
      simp only [hlk] at he
      rcases hfp : findPartner ({ u with interests := ints, inChat := false })
          (removeFromWaiting u.id s.waitingUsers) with ⟨op, pool2⟩
      simp only [hfp] at he
      cases op with
      | none =>
        simp only [List.mem_singleton] at he
        subst he
        left
        cases Option.some.inj hp
        rfl
      | some partner =>
        rcases List.mem_append.mp he with h1 | h1
        · rcases List.mem_append.mp h1 with h2 | h2
          · rcases List.mem_append.mp h2 with h3 | h3
            · rcases List.mem_singleton.mp h3 with rfl
              simp [emitPayload] at hp
            · rcases List.mem_singleton.mp (mem_of_mem_ite h3) with rfl
              simp [emitPayload] at hp
          · rcases List.mem_singleton.mp h2 with rfl
            left
            cases Option.some.inj hp
            rfl
        · rcases List.mem_singleton.mp (mem_of_mem_ite h1) with rfl
          left
          cases Option.some.inj hp
          rfl
  | cancelSearch =>
    simp only [handleEvent] at he
    cases hlk : lookupActive s.activeUsers sock with
    | none =>
      simp only [hlk] at he
      cases he
    | some u =>
      simp only [hlk] at he
      rcases List.mem_singleton.mp he with rfl
      left
      cases Option.some.inj hp
      rfl
  | webrtcSignal sig room =>
    simp only [handleEvent, List.mem_singleton] at he
    subst he
    exact Or.inr ⟨sig, room, rfl, rfl⟩
  | sendMessage msg room mid ts =>
    simp only [handleEvent] at he
    cases hlk : lookupActive s.activeUsers sock with
    | none =>
      simp only [hlk] at he
      cases he
    | some u =>
      simp only [hlk] at he
      rcases List.mem_singleton.mp he with rfl
      left
      cases Option.some.inj hp
      rfl
  | typing room b =>
    rcases List.mem_singleton.mp he with rfl
    left
    cases Option.some.inj hp
    rfl
  | requestGame room g =>
    rcases List.mem_singleton.mp he with rfl
    left
    cases Option.some.inj hp
    rfl
  | acceptGame room g =>
    rcases List.mem_singleton.mp he with rfl
    left
    cases Option.some.inj hp
    rfl
  | declineGame room g =>
    rcases List.mem_singleton.mp he with rfl
    left
    cases Option.some.inj hp
    rfl
  | startGame room g =>
    rcases List.mem_singleton.mp he with rfl
    left
    cases Option.some.inj hp
    rfl
  | ticTacToeMove room i sym =>
    rcases List.mem_singleton.mp he with rfl
    left
    cases Option.some.inj hp
    rfl
  | ticTacToePlayAgain room =>
    rcases List.mem_singleton.mp he with rfl
    left
    cases Option.some.inj hp
    rfl
  | wyrChoice room ch =>
    rcases List.mem_singleton.mp he with rfl
    left
    cases Option.some.inj hp
    rfl
  | wyrNextQuestion room q =>
    rcases List.mem_singleton.mp he with rfl
    left
    cases Option.some.inj hp
    rfl
  | skipPartner =>
    simp only [handleEvent] at he
    cases hlk : lookupActive s.activeUsers sock with
    | none =>
      simp only [hlk] at he
      cases he
    | some u =>
      simp only [hlk] at he
      cases hpid : u.partnerId with
      | none =>
        simp only [hpid] at he
        cases he
      | some pid =>
        simp only [hpid] at he
        cases hfind : findByUserId s.activeUsers pid with
        | none =>
          simp only [hfind] at he
          rcases List.mem_singleton.mp he with rfl
          left
          cases Option.some.inj hp
          rfl
        | some entry =>
          obtain ⟨psock, partner⟩ := entry
          simp only [hfind] at he
          rcases List.mem_append.mp he with h1 | h1
          · rcases List.mem_singleton.mp (mem_of_mem_ite h1) with rfl
            left
            cases Option.some.inj hp
            rfl
          · rcases List.mem_singleton.mp h1 with rfl
            left
            cases Option.some.inj hp
            rfl
  | disconnect =>
    simp only [handleEvent] at he
    cases hlk : lookupActive s.activeUsers sock with
    | none =>
      simp only [hlk] at he
      rcases List.mem_singleton.mp he with rfl
      left
      cases Option.some.inj hp
      rfl
    | some u =>
      simp only [hlk] at he
      cases hpid : u.partnerId with
      | none =>
        simp only [hpid] at he
        rcases List.mem_singleton.mp he with rfl
        left
        cases Option.some.inj hp
        rfl
      | some pid =>
        simp only [hpid] at he
        cases hfind : findByUserId s.activeUsers pid with
        | none =>
          simp only [hfind] at he
          rcases List.mem_singleton.mp he with rfl
          left
          cases Option.some.inj hp
          rfl
        | some entry =>
          obtain ⟨psock, partner⟩ := entry
          simp only [hfind] at he
          rcases List.mem_append.mp he with h1 | h1
          · rcases List.mem_singleton.mp (mem_of_mem_ite h1) with rfl
            left
            cases Option.some.inj hp
            rfl
          · rcases List.mem_singleton.mp h1 with rfl
            left
            cases Option.some.inj hp
            rfl

/-- Witness for C9 (amended): the relayed `partner-typing` payload has no
socket-id field, and the `webrtc-signal` relay is exactly the exempted
shape. -/
theorem socket_refs_only_webrtc_from_witness :
    payloadSocketRefs (Event.partnerTyping true) = []
    ∨ ∃ sig room, (ClientEvent.typing "room-B-A" true) = .webrtcSignal sig room
        ∧ (Emit.toRoomExceptSender "room-B-A" "s1" (.partnerTyping true))
            = .toRoomExceptSender room "s1" (.webrtcSignal sig "s1") :=
  socket_refs_only_webrtc_from pairedState.1 "s1" (.typing "room-B-A" true)
    (.toRoomExceptSender "room-B-A" "s1" (.partnerTyping true)) (by decide)
    (.partnerTyping true) rfl

theorem mem_of_lookupActive {m : List (String × User)} {k : String} {u : User}
    (h : lookupActive m k = some u) : (k, u) ∈ m := by
  induction m with
  | nil => cases h
  | cons e rest ih =>
    obtain ⟨k0, v⟩ := e
    by_cases hk : k0 = k
    · subst hk
      simp only [lookupActive, if_pos] at h
      cases Option.some.inj h
      exact List.mem_cons_self _ _
    · simp only [lookupActive, hk, if_neg, if_false] at h
      exact List.mem_cons_of_mem _ (ih h)

theorem not_mem_keys_of_lookupActive_none {m : List (String × User)} {k : String}
    (h : lookupActive m k = none) : k ∉ m.map Prod.fst := by
  induction m with
  | nil => simp
  | cons e rest ih =>
    obtain ⟨k0, v⟩ := e
    by_cases hk : k0 = k
    · simp [lookupActive, hk] at h
    · simp only [lookupActive, hk, if_neg, if_false] at h
      simp only [List.map_cons, List.mem_cons]
      rintro (h1 | h1)
      · exact hk h1.symm
      · exact ih h h1

theorem lookupActive_append_left {m l : List (String × User)} {k : String} {u : User}
    (h : lookupActive m k = some u) : lookupActive (m ++ l) k = some u := by
  induction m with
  | nil => cases h
  | cons e rest ih =>
    obtain ⟨k0, v⟩ := e
    by_cases hk : k0 = k
    · simp only [lookupActive, hk, if_pos] at h ⊢
      exact h
    · simp only [lookupActive, hk, if_neg, if_false] at h ⊢
      exact ih h

theorem lookupActive_append_right {m l : List (String × User)} {k : String}
    (h : lookupActive m k = none) : lookupActive (m ++ l) k = lookupActive l k := by
  induction m with
  | nil => rfl
  | cons e rest ih =>
    obtain ⟨k0, v⟩ := e
    by_cases hk : k0 = k
    · simp [lookupActive, hk] at h
    · simp only [lookupActive, hk, if_neg, if_false] at h ⊢
      exact ih h

/-- The inductive invariant of the engine, preserved by every valid step:
the registry has no duplicate socket keys and no duplicate user ids, each
registry record's `socketId` equals its key, pool ids are pairwise
distinct, and every pooled user resolves through its `socketId` to a
registry record with the same id and `inChat = false`. -/
structure Inv (s : ServerState) : Prop where
  keysNodup : (s.activeUsers.map Prod.fst).Nodup
  idsNodup : (s.activeUsers.map fun e => e.2.id).Nodup
  sockEq : ∀ e ∈ s.activeUsers, e.2.socketId = e.1
  poolNodup : (s.waitingUsers.map User.id).Nodup
  poolReg : ∀ w ∈ s.waitingUsers, ∃ u, lookupActive s.activeUsers w.socketId = some u
      ∧ u.id = w.id ∧ u.inChat = false

theorem poolReg_updateActive {m : List (String × User)} {pool : List User}
    (hreg : ∀ w ∈ pool, ∃ u, lookupActive m w.socketId = some u
      ∧ u.id = w.id ∧ u.inChat = false)
    {k : String} {v : User}
    (hid : ∀ u0, lookupActive m k = some u0 → v.id = u0.id)
    (hchat : v.inChat = false) :
    ∀ w ∈ pool, ∃ u, lookupActive (updateActive m k v) w.socketId = some u
      ∧ u.id = w.id ∧ u.inChat = false := by
  intro w hw
  obtain ⟨uw, hlw, hwid, hwchat⟩ := hreg w hw
  by_cases hws : w.socketId = k
  · subst hws
    refine ⟨v, ?_, ?_, hchat⟩
    · rw [lookupActive_updateActive_self, hlw]
      rfl
    · rw [hid uw hlw, hwid]
  · exact ⟨uw, by rw [lookupActive_updateActive_ne hws]; exact hlw, hwid, hwchat⟩

theorem sockEq_updateActive {m : List (String × User)}
    (hsock : ∀ e ∈ m, e.2.socketId = e.1) {k : String} {v : User}
    (hv : v.socketId = k) : ∀ e ∈ updateActive m k v, e.2.socketId = e.1 := by
  intro e he
  rcases mem_updateActive he with h | h
  · exact hsock e h
  · rw [h]
    exact hv

theorem Inv_connect {s : ServerState} {sock uid : String}
    (hinv : Inv s)
    (hn : lookupActive s.activeUsers sock = none)
    (hfresh : ∀ e ∈ s.activeUsers, e.2.id ≠ uid) :
    Inv (handleEvent s sock (.connect uid)).1 := by
  simp only [handleEvent]
  rw [setActive_of_lookup_none hn]
  have hknotin : sock ∉ s.activeUsers.map Prod.fst := not_mem_keys_of_lookupActive_none hn
  have hidnotin : uid ∉ s.activeUsers.map fun e => e.2.id := by
    intro hmem
    obtain ⟨e, he, heq⟩ := List.mem_map.mp hmem
    exact hfresh e he heq
  constructor
  · simp [List.nodup_append, hinv.keysNodup, hknotin]
  · simp [List.nodup_append, hinv.idsNodup, hidnotin]
  · intro e he
    rcases List.mem_append.mp he with h | h
    · exact hinv.sockEq e h
    · rcases List.mem_singleton.mp h with rfl
      rfl
  · exact hinv.poolNodup
  · intro w hw
    obtain ⟨uw, hlw, hwid, hwchat⟩ := hinv.poolReg w hw
    exact ⟨uw, lookupActive_append_left hlw, hwid, hwchat⟩

theorem Inv_cancelSearch {s : ServerState} {sock : String} (hinv : Inv s) :
    Inv (handleEvent s sock .cancelSearch).1 := by
  simp only [handleEvent]
  cases hlk : lookupActive s.activeUsers sock with
  | none => exact hinv
  | some u =>
    constructor
    · exact hinv.keysNodup
    · exact hinv.idsNodup
    · exact hinv.sockEq
    · exact hinv.poolNodup.sublist ((removeFromWaiting_sublist _ _).map _)
    · intro w hw
      exact hinv.poolReg w ((removeFromWaiting_sublist _ _).subset hw)

theorem Inv_skipPartner {s : ServerState} {sock : String} (hinv : Inv s) :
    Inv (handleEvent s sock .skipPartner).1 := by
  simp only [handleEvent]
  split
  · exact hinv
  rename_i u hlk
  split
  · exact hinv
  rename_i pid hpid
  split
  · rename_i psock partner hfind
    have hpmem := findByUserId_mem hfind
    have hlkp : lookupActive s.activeUsers psock = some partner :=
      lookupActive_eq_of_mem_nodup hpmem.1 hinv.keysNodup
    have houter : ∃ v0, lookupActive (updateActive s.activeUsers psock
        ({ partner with partnerId := none, inChat := false })) sock = some v0
        ∧ v0.id = u.id := by
      by_cases hss : sock = psock
      · subst hss
        refine ⟨{ partner with partnerId := none, inChat := false }, ?_, ?_⟩
        · rw [lookupActive_updateActive_self, hlkp]
          rfl
        · rw [hlkp] at hlk
          cases Option.some.inj hlk
          rfl
      · exact ⟨u, by rw [lookupActive_updateActive_ne hss]; exact hlk, rfl⟩
    obtain ⟨v0, hv0, hv0id⟩ := houter
    constructor
    · rw [updateActive_keys, updateActive_keys]
      exact hinv.keysNodup
    · rw [updateActive_ids (v := { u with partnerId := none, inChat := false }) hv0 hv0id,
        updateActive_ids (v := { partner with partnerId := none, inChat := false }) hlkp rfl]
      exact hinv.idsNodup
    · exact sockEq_updateActive (v := { u with partnerId := none, inChat := false })
        (sockEq_updateActive (v := { partner with partnerId := none, inChat := false })
          hinv.sockEq (hinv.sockEq _ hpmem.1))
        (hinv.sockEq _ (mem_of_lookupActive hlk))
    · exact hinv.poolNodup
    · refine poolReg_updateActive (poolReg_updateActive hinv.poolReg
        (fun u0 h0 => by rw [hlkp] at h0; cases Option.some.inj h0; rfl) rfl)
        (fun u0 h0 => by rw [hv0] at h0; cases Option.some.inj h0; exact hv0id.symm) rfl
  · rename_i hfind
    constructor
    · rw [updateActive_keys]
      exact hinv.keysNodup
    · rw [updateActive_ids (v := { u with partnerId := none, inChat := false }) hlk rfl]
      exact hinv.idsNodup
    · exact sockEq_updateActive (v := { u with partnerId := none, inChat := false })
        hinv.sockEq (hinv.sockEq _ (mem_of_lookupActive hlk))
    · exact hinv.poolNodup
    · exact poolReg_updateActive hinv.poolReg
        (fun u0 h0 => by rw [hlk] at h0; cases Option.some.inj h0; rfl) rfl

theorem Inv_disconnect_aux {s : ServerState} {sock : String} {m2 : List (String × User)}
    (hinv : Inv s) {u : User} (_hlk : lookupActive s.activeUsers sock = some u)
    (hkeys2 : m2.map Prod.fst = s.activeUsers.map Prod.fst)
    (hids2 : (m2.map fun e => e.2.id).Nodup)
    (hsock2 : ∀ e ∈ m2, e.2.socketId = e.1)
    (hreg2 : ∀ w ∈ s.waitingUsers, ∃ v, lookupActive m2 w.socketId = some v
        ∧ v.id = w.id ∧ v.inChat = false)
    (hlk2 : ∃ v, lookupActive m2 sock = some v ∧ v.id = u.id) :
    Inv ⟨removeFromWaiting u.id s.waitingUsers, deleteActive m2 sock⟩ := by
  have hkeysnd : (m2.map Prod.fst).Nodup := by
    rw [hkeys2]
    exact hinv.keysNodup
  constructor
  · exact hkeysnd.sublist ((deleteActive_sublist _ _).map _)
  · exact hids2.sublist ((deleteActive_sublist _ _).map _)
  · intro e he
    exact hsock2 e ((deleteActive_sublist _ _).subset he)
  · exact hinv.poolNodup.sublist ((removeFromWaiting_sublist _ _).map _)
  · intro w hw
    have hwpool := (removeFromWaiting_sublist _ _).subset hw
    obtain ⟨v, hlv, hvid, hvchat⟩ := hreg2 w hwpool
    by_cases hws : w.socketId = sock
    · exfalso
      obtain ⟨v2, hlv2, hv2id⟩ := hlk2
      rw [hws] at hlv
      rw [hlv] at hlv2
      cases Option.some.inj hlv2
      have hwid : u.id = w.id := by
        rw [← hv2id, hvid]
      have hmm : w.id ∈ (removeFromWaiting u.id s.waitingUsers).map User.id :=
        List.mem_map_of_mem User.id hw
      rw [← hwid] at hmm
      exact removeFromWaiting_not_mem_ids hinv.poolNodup hmm
    · exact ⟨v, by rw [lookupActive_deleteActive_ne hkeysnd hws]; exact hlv, hvid, hvchat⟩

theorem Inv_disconnect {s : ServerState} {sock : String} (hinv : Inv s) :
    Inv (handleEvent s sock .disconnect).1 := by
  simp only [handleEvent]
  split
  · exact hinv
  rename_i u hlk
  split
  · rename_i pid hpid
    split
    · rename_i psock partner hfind
      have hpmem := findByUserId_mem hfind
      have hlkp : lookupActive s.activeUsers psock = some partner :=
        lookupActive_eq_of_mem_nodup hpmem.1 hinv.keysNodup
      refine Inv_disconnect_aux hinv hlk updateActive_keys ?_ ?_ ?_ ?_
      · rw [updateActive_ids (v := { partner with partnerId := none, inChat := false }) hlkp rfl]
        exact hinv.idsNodup
      · exact sockEq_updateActive (v := { partner with partnerId := none, inChat := false })
          hinv.sockEq (hinv.sockEq _ hpmem.1)
      · exact poolReg_updateActive hinv.poolReg
          (fun u0 h0 => by rw [hlkp] at h0; cases Option.some.inj h0; rfl) rfl
      · by_cases hss : sock = psock
        · subst hss
          refine ⟨{ partner with partnerId := none, inChat := false }, ?_, ?_⟩
          · rw [lookupActive_updateActive_self, hlkp]
            rfl
          · rw [hlkp] at hlk
            cases Option.some.inj hlk
            rfl
        · exact ⟨u, by rw [lookupActive_updateActive_ne hss]; exact hlk, rfl⟩
    · exact Inv_disconnect_aux hinv hlk rfl hinv.idsNodup hinv.sockEq hinv.poolReg
        ⟨u, hlk, rfl⟩
  · exact Inv_disconnect_aux hinv hlk rfl hinv.idsNodup hinv.sockEq hinv.poolReg
      ⟨u, hlk, rfl⟩

theorem Inv_findPartnerEv {s : ServerState} {sock : String} {ints : Option (List String)}
    (hinv : Inv s) : Inv (handleEvent s sock (.findPartner ints)).1 := by
  simp only [handleEvent]
  split
  · exact hinv
  rename_i u hlk
  have husock : u.socketId = sock := hinv.sockEq _ (mem_of_lookupActive hlk)
  have hp1nd : ((removeFromWaiting u.id s.waitingUsers).map User.id).Nodup :=
    hinv.poolNodup.sublist ((removeFromWaiting_sublist _ _).map _)
  have hu_nid : u.id ∉ (removeFromWaiting u.id s.waitingUsers).map User.id :=
    removeFromWaiting_not_mem_ids hinv.poolNodup
  split
  · rename_i partner pool2 hfp
    obtain ⟨hperm, hpid⟩ := findPartner_some_perm hfp
    have hpmem1 : partner ∈ removeFromWaiting u.id s.waitingUsers :=
      hperm.mem_iff.mpr (List.mem_cons_self _ _)
    have hpmemp : partner ∈ s.waitingUsers := (removeFromWaiting_sublist _ _).subset hpmem1
    obtain ⟨up, hlp, hupid, hupchat⟩ := hinv.poolReg partner hpmemp
    have hpsne : partner.socketId ≠ sock := by
      intro he
      rw [he, hlk] at hlp
      cases Option.some.inj hlp
      exact hpid hupid.symm
    have hidperm := hperm.map User.id
    rw [List.map_cons] at hidperm
    have hconsnd := hidperm.nodup_iff.mp hp1nd
    have hpid_not := (List.nodup_cons.mp hconsnd).1
    have hpool2nd := (List.nodup_cons.mp hconsnd).2
    have hlk1 : lookupActive (updateActive s.activeUsers sock
        ({ u with interests := ints, inChat := false })) sock
        = some ({ u with interests := ints, inChat := false }) := by
      rw [lookupActive_updateActive_self, hlk]
      rfl
    have hlp2 : lookupActive (updateActive (updateActive s.activeUsers sock
        ({ u with interests := ints, inChat := false })) sock
        ({ u with interests := ints, inChat := true, partnerId := some partner.id }))
        partner.socketId = some up := by
      rw [lookupActive_updateActive_ne hpsne, lookupActive_updateActive_ne hpsne]
      exact hlp
    constructor
    · rw [updateActive_keys, updateActive_keys, updateActive_keys]
      exact hinv.keysNodup
    · rw [updateActive_ids
          (v := { partner with partnerId := some u.id, inChat := true }) hlp2 hupid,
        updateActive_ids
          (v := { u with interests := ints, inChat := true, partnerId := some partner.id })
          hlk1 rfl,
        updateActive_ids (v := { u with interests := ints, inChat := false }) hlk rfl]
      exact hinv.idsNodup
    · exact sockEq_updateActive
        (v := { partner with partnerId := some u.id, inChat := true })
        (sockEq_updateActive
          (v := { u with interests := ints, inChat := true, partnerId := some partner.id })
          (sockEq_updateActive (v := { u with interests := ints, inChat := false })
            hinv.sockEq husock)
          husock)
        rfl
    · exact hpool2nd
    · intro w hw
      have hw1 : w ∈ removeFromWaiting u.id s.waitingUsers :=
        hperm.mem_iff.mpr (List.mem_cons_of_mem _ hw)
      have hwid_mem : w.id ∈ pool2.map User.id := List.mem_map_of_mem User.id hw
      obtain ⟨uw, hlw, hwid, hwchat⟩ :=
        hinv.poolReg w ((removeFromWaiting_sublist _ _).subset hw1)
      by_cases hws : w.socketId = sock
      · exfalso
        rw [hws, hlk] at hlw
        cases Option.some.inj hlw
        have hmm : w.id ∈ (removeFromWaiting u.id s.waitingUsers).map User.id :=
          List.mem_map_of_mem User.id hw1
        rw [← hwid] at hmm
        exact hu_nid hmm
      · by_cases hwp : w.socketId = partner.socketId
        · exfalso
          rw [hwp, hlp] at hlw
          cases Option.some.inj hlw
          rw [← hwid, hupid] at hwid_mem
          exact hpid_not hwid_mem
        · refine ⟨uw, ?_, hwid, hwchat⟩
          rw [lookupActive_updateActive_ne hwp, lookupActive_updateActive_ne hws,
            lookupActive_updateActive_ne hws]
          exact hlw
  · rename_i pool2 hfp
    have hpool : pool2 = removeFromWaiting u.id s.waitingUsers := findPartner_none_pool hfp
    subst hpool
    constructor
    · rw [updateActive_keys]
      exact hinv.keysNodup
    · rw [updateActive_ids (v := { u with interests := ints, inChat := false }) hlk rfl]
      exact hinv.idsNodup
    · exact sockEq_updateActive (v := { u with interests := ints, inChat := false })
        hinv.sockEq husock
    · simp only [List.map_append, List.map_cons, List.map_nil]
      simp [List.nodup_append, hp1nd, hu_nid]
    · intro w hw
      rcases List.mem_append.mp hw with hw1 | hw1
      · obtain ⟨uw, hlw, hwid, hwchat⟩ :=
          hinv.poolReg w ((removeFromWaiting_sublist _ _).subset hw1)
        by_cases hws : w.socketId = sock
        · exfalso
          rw [hws, hlk] at hlw
          cases Option.some.inj hlw
          have hmm : w.id ∈ (removeFromWaiting u.id s.waitingUsers).map User.id :=
            List.mem_map_of_mem User.id hw1
          rw [← hwid] at hmm
          exact hu_nid hmm
        · refine ⟨uw, ?_, hwid, hwchat⟩
          rw [lookupActive_updateActive_ne hws]
          exact hlw
      · rcases List.mem_singleton.mp hw1 with rfl
        refine ⟨{ u with interests := ints, inChat := false }, ?_, rfl, rfl⟩
        show lookupActive _ u.socketId = _
        rw [husock, lookupActive_updateActive_self, hlk]
        rfl

theorem Inv_preserved {s : ServerState} {sock : String} {ev : ClientEvent}
    (hinv : Inv s) (hv : ValidStep s sock ev) : Inv (handleEvent s sock ev).1 := by
  cases ev with
  | connect uid => exact Inv_connect hinv hv.1 hv.2
  | findPartner ints => exact Inv_findPartnerEv hinv
  | cancelSearch => exact Inv_cancelSearch hinv
  | skipPartner => exact Inv_skipPartner hinv
  | disconnect => exact Inv_disconnect hinv
  | webrtcSignal sig room => exact hinv
  | sendMessage msg room mid ts =>
    simp only [handleEvent]
    split
    · exact hinv
    · exact hinv
  | typing room b => exact hinv
  | requestGame room g => exact hinv
  | acceptGame room g => exact hinv
  | declineGame room g => exact hinv
  | startGame room g => exact hinv
  | ticTacToeMove room i sym => exact hinv
  | ticTacToePlayAgain room => exact hinv
  | wyrChoice room ch => exact hinv
  | wyrNextQuestion room q => exact hinv

theorem Inv_reachable {s : ServerState} (h : Reachable s) : Inv s := by
  induction h with
  | init => exact ⟨by simp, by simp, by simp, by simp, by simp⟩
  | step hr hv ih => exact Inv_preserved ih hv

/-- C6: in every reachable server state — the observable points between
event processing of valid traces — the waiting pool holds at most one
entry per user id (re-requesting removes the prior entry first), and no
user appears in the pool while its registered record has
`inChat = true`. -/
theorem waiting_pool_invariant (s : ServerState) (h : Reachable s) :
    (s.waitingUsers.map User.id).Nodup
    ∧ ∀ w ∈ s.waitingUsers, ∀ e ∈ s.activeUsers, e.2.id = w.id → e.2.inChat = false := by
  have hinv := Inv_reachable h
  refine ⟨hinv.poolNodup, ?_⟩
  intro w hw e he hid
  obtain ⟨uw, hlw, hwid, hwchat⟩ := hinv.poolReg w hw
  have hmem := mem_of_lookupActive hlw
  have heq : e = (w.socketId, uw) :=
    List.inj_on_of_nodup_map hinv.idsNodup he hmem (by rw [hid, hwid])
  rw [heq]
  exact hwchat

/-- Witness for C6: the reachable state with `A` waiting and `B` idle
satisfies the pool invariant. -/
theorem waiting_pool_invariant_witness :
    (waitingState.1.waitingUsers.map User.id).Nodup
    ∧ ∀ w ∈ waitingState.1.waitingUsers, ∀ e ∈ waitingState.1.activeUsers,
        e.2.id = w.id → e.2.inChat = false := by
  have h0 : Reachable (⟨[], []⟩ : ServerState) := Reachable.init
  have h1 := @Reachable.step _ "s1" (ClientEvent.connect "A") h0 ⟨by decide, by decide⟩
  have h2 := @Reachable.step _ "s2" (ClientEvent.connect "B") h1 ⟨by decide, by decide⟩
  have h3 := @Reachable.step _ "s1" (ClientEvent.findPartner none) h2 trivial
  exact waiting_pool_invariant waitingState.1 h3

end Render
